import Mathlib

/-!
# Verification of the update-orchestration engine

Shallow embedding, in Lean 4, of the detection / version-reconciliation /
update-orchestration core of the `ai-code-auto-updater` repository
(`index.js`, `src/managers/cli-manager.js`), together with theorems that
settle the specification claims against it.

Strings are handled as `List Char` wherever the JavaScript code scans or
rewrites them, so that every definition evaluates by `decide`/`rfl`.
-/

namespace AutoUpdater

/-! ## Basic character and digit utilities -/

/-- Decimal-digit test on a character (ASCII `0`–`9`), as used by the
version-string scanners. -/
def isDig (c : Char) : Bool := 48 ≤ c.toNat && c.toNat ≤ 57

/-- Numeric value of a decimal digit character. -/
def dval (c : Char) : Nat := c.toNat - 48

/-- The character printing a single decimal digit. -/
def digitChar (d : Nat) : Char :=
  if d = 0 then '0' else if d = 1 then '1' else if d = 2 then '2'
  else if d = 3 then '3' else if d = 4 then '4' else if d = 5 then '5'
  else if d = 6 then '6' else if d = 7 then '7' else if d = 8 then '8' else '9'

/-- Extend an accumulated value by a list of decimal digits
(most-significant first), exactly the way repeated
`10*acc + digit` accumulation reads a number. -/
def valExt (val : Nat) : List Char → Nat
  | [] => val
  | c :: cs => valExt (10 * val + dval c) cs

/-- Numeric value of a digit string. -/
def digitsVal (l : List Char) : Nat := valExt 0 l

/-- Fuel-driven digit extraction, least-significant first (the fuel is
always at least the number, so it never runs out). -/
def toDigitsRevGo : Nat → Nat → List Char
  | _, 0 => []
  | 0, _ + 1 => []
  | fuel + 1, n + 1 => digitChar ((n + 1) % 10) :: toDigitsRevGo fuel ((n + 1) / 10)

/-- Decimal digits of a positive number, least-significant first.
Models how JavaScript stringifies a number. -/
def toDigitsRev (n : Nat) : List Char := toDigitsRevGo n n

/-- Decimal printing of a natural number as a character list
(the JavaScript `${num}` template rendering). -/
def natToChars (n : Nat) : List Char :=
  if n = 0 then ['0'] else (toDigitsRev n).reverse

/-! ## Model of `semver.coerce` and `normalizeVersion` (index.js 294–299)

`normalizeVersion(version)` in the source returns `null` for a falsy input
and otherwise `semver.coerce(version).version` (or `null` when coercion
fails).  `semver.coerce` searches the string for the first maximal run of
at most 16 decimal digits (a longer run is skipped whole), reads it as the
major number, then optionally reads `.minor` and `.patch` the same way,
and renders `major.minor.patch` with the missing parts as `0`. -/

/-- Scan for the major component: walk the string keeping the length and
value of the digit run currently being read; when the run ends (non-digit
or end of input) accept it if its length is between 1 and 16, otherwise
reset and continue.  Returns the major value and the unconsumed rest. -/
def scanMajor : List Char → Nat → Nat → Option (Nat × List Char)
  | [], len, val =>
    if 1 ≤ len ∧ len ≤ 16 then some (val, []) else none
  | c :: cs, len, val =>
    if isDig c then scanMajor cs (len + 1) (10 * val + dval c)
    else if 1 ≤ len ∧ len ≤ 16 then some (val, c :: cs)
    else scanMajor cs 0 0

/-- Read an optional `.<digits>` component (at most 16 digits, maximal
run).  Mirrors the `(?:\.(\d{1,16}))?` groups of the coercion pattern. -/
def parseDotRun : List Char → Option (Nat × List Char)
  | '.' :: cs =>
    let run := cs.takeWhile isDig
    if 1 ≤ run.length ∧ run.length ≤ 16 then
      some (digitsVal run, cs.dropWhile isDig)
    else none
  | _ => none

/-- The numeric triple extracted by `semver.coerce`. -/
def coerceTriple (s : List Char) : Option (Nat × Nat × Nat) :=
  match scanMajor s 0 0 with
  | none => none
  | some (maj, rest) =>
    match parseDotRun rest with
    | none => some (maj, 0, 0)
    | some (mnr, rest2) =>
      match parseDotRun rest2 with
      | none => some (maj, mnr, 0)
      | some (pat, _) => some (maj, mnr, pat)

/-- Render the coerced triple as `major.minor.patch`. -/
def renderTriple (a b c : Nat) : List Char :=
  natToChars a ++ ('.' :: (natToChars b ++ ('.' :: natToChars c)))

/-- `normalizeVersion` of index.js: `null` on empty input, else the
coerced semantic version, `null` when coercion fails. -/
def normalizeVersion (version : String) : Option String :=
  if version = "" then none
  else
    match coerceTriple version.data with
    | some (a, b, c) => some (String.mk (renderTriple a b c))
    | none => none

/-! ## Model of strict semver parsing and comparison

`semver.valid`, `semver.gt` and `semver.rcompare` of the `semver` package,
as invoked by `getExtensionVersionFromDir`, `AugmentMonitor.run` and
`CLIManager.checkAllForUpdates`.  A strictly valid version is
`major.minor.patch` of non-negative integers without leading zeroes,
optionally followed by `-` and dot-separated pre-release identifiers
(alphanumerics and hyphens; purely numeric identifiers without leading
zeroes) and by `+` and build identifiers (ignored by comparison). -/

/-- ASCII letter or digit. -/
def isAlphaNum (c : Char) : Bool :=
  isDig c || (97 ≤ c.toNat && c.toNat ≤ 122) || (65 ≤ c.toNat && c.toNat ≤ 90)

/-- Character allowed inside a pre-release / build identifier. -/
def isIdentChar (c : Char) : Bool := isAlphaNum c || c = '-'

/-- Split a character list at every occurrence of a separator. -/
def splitOnChar (sep : Char) : List Char → List (List Char)
  | [] => [[]]
  | c :: cs =>
    if c = sep then [] :: splitOnChar sep cs
    else
      match splitOnChar sep cs with
      | [] => [[c]]
      | g :: gs => (c :: g) :: gs

/-- Parse a leading numeric component: a non-empty digit run without
leading zeroes.  Returns the value and the unconsumed rest. -/
def parseNum (l : List Char) : Option (Nat × List Char) :=
  let ds := l.takeWhile isDig
  if ds.length = 0 then none
  else if 2 ≤ ds.length ∧ ds.head? = some '0' then none
  else some (digitsVal ds, l.dropWhile isDig)

/-- Consume one expected character. -/
def expectChar (c : Char) : List Char → Option (List Char)
  | x :: xs => if x = c then some xs else none
  | [] => none

/-- A pre-release identifier: numeric identifiers compare by value and
before any alphanumeric identifier; alphanumeric ones compare as ASCII
strings. -/
inductive PreId where
  | num (n : Nat)
  | alpha (s : List Char)
deriving DecidableEq

/-- Classify one dot-separated pre-release identifier. -/
def classifyPreId (s : List Char) : Option PreId :=
  if s.isEmpty then none
  else if !s.all isIdentChar then none
  else if s.all isDig then
    if 2 ≤ s.length ∧ s.head? = some '0' then none
    else some (PreId.num (digitsVal s))
  else some (PreId.alpha s)

/-- Parse the pre-release identifier list. -/
def parsePreIds (l : List Char) : Option (List PreId) :=
  (splitOnChar '.' l).mapM classifyPreId

/-- Validate build identifiers (present in the grammar, ignored by
comparison). -/
def validBuildIds (l : List Char) : Bool :=
  (splitOnChar '.' l).all (fun s => !s.isEmpty && s.all isIdentChar)

/-- A parsed semantic version (build metadata dropped: it never takes
part in a comparison). -/
structure Semver where
  major : Nat
  minor : Nat
  patch : Nat
  pre : List PreId
deriving DecidableEq

/-- Strict semver parsing: the model of `semver.valid` (a string is valid
iff this returns `some`) and of the parse step inside `semver.gt` /
`semver.rcompare`. -/
def parseSemver (s : String) : Option Semver :=
  match parseNum s.data with
  | none => none
  | some (maj, r1) =>
    match expectChar '.' r1 with
    | none => none
    | some r2 =>
      match parseNum r2 with
      | none => none
      | some (mnr, r3) =>
        match expectChar '.' r3 with
        | none => none
        | some r4 =>
          match parseNum r4 with
          | none => none
          | some (pat, r5) =>
            match r5 with
            | [] => some ⟨maj, mnr, pat, []⟩
            | '-' :: r6 =>
              match parsePreIds (r6.takeWhile (fun c => c ≠ '+')) with
              | none => none
              | some pre =>
                match r6.dropWhile (fun c => c ≠ '+') with
                | [] => some ⟨maj, mnr, pat, pre⟩
                | _ :: b =>
                  if validBuildIds b then some ⟨maj, mnr, pat, pre⟩ else none
            | '+' :: r6 =>
              if validBuildIds r6 then some ⟨maj, mnr, pat, []⟩ else none
            | _ => none

/-- Three-way comparison of naturals. -/
def cmpNat (a b : Nat) : Ordering :=
  if a < b then Ordering.lt else if b < a then Ordering.gt else Ordering.eq

/-- Three-way comparison of characters by code point (JavaScript compares
strings by code units; on the ASCII range the two coincide). -/
def cmpChar (a b : Char) : Ordering := cmpNat a.toNat b.toNat

/-- Lexicographic comparison of lists, shorter prefix first. -/
def lexCmp (cmp : α → α → Ordering) : List α → List α → Ordering
  | [], [] => Ordering.eq
  | [], _ :: _ => Ordering.lt
  | _ :: _, [] => Ordering.gt
  | a :: as, b :: bs =>
    match cmp a b with
    | Ordering.eq => lexCmp cmp as bs
    | o => o

/-- Comparison of single pre-release identifiers. -/
def cmpPreId : PreId → PreId → Ordering
  | PreId.num a, PreId.num b => cmpNat a b
  | PreId.num _, PreId.alpha _ => Ordering.lt
  | PreId.alpha _, PreId.num _ => Ordering.gt
  | PreId.alpha a, PreId.alpha b => lexCmp cmpChar a b

/-- Pre-release precedence: a release outranks any of its pre-releases;
two pre-release lists compare lexicographically, shorter prefix first. -/
def preCmp : List PreId → List PreId → Ordering
  | [], [] => Ordering.eq
  | [], _ :: _ => Ordering.gt
  | _ :: _, [] => Ordering.lt
  | a, b => lexCmp cmpPreId a b

/-- Semver precedence: compare the numeric triple component-wise, then
the pre-release lists. -/
def compareSemver (x y : Semver) : Ordering :=
  (cmpNat x.major y.major).then
    ((cmpNat x.minor y.minor).then
      ((cmpNat x.patch y.patch).then (preCmp x.pre y.pre)))

/-- `semver.gt(a, b)`: `none` models the exception the library raises on
an unparseable input. -/
def semverGt (a b : String) : Option Bool :=
  match parseSemver a, parseSemver b with
  | some x, some y => some (compareSemver x y = Ordering.gt)
  | _, _ => none

/-- The update decision of `AugmentMonitor.run` (index.js 2298–2306) and
`CLIManager.checkAllForUpdates` (cli-manager.js 113–137): a missing
installed version always counts as outdated, otherwise the raw strings
are handed to `semver.gt(latest, installed)` — no normalization. -/
def isOutdated (installedVersion : Option String) (latest : String) : Option Bool :=
  match installedVersion with
  | none => some true
  | some v => semverGt latest v

/-- Modelled from the spec: `needsUpdate(installed, latest) := installed
is absent OR normalize(latest) > normalize(installed)`, both sides passed
through `normalizeVersion` before the comparison. -/
def needsUpdateSpec (installedVersion : Option String) (latest : String) : Bool :=
  match installedVersion with
  | none => true
  | some v =>
    match normalizeVersion latest, normalizeVersion v with
    | some nl, some nv => (semverGt nl nv).getD false
    | _, _ => false

/-! ## Installed-version scan over a package-store directory listing -/

/-- Prefix test on character lists. -/
def listPrefixAt : List Char → List Char → Bool
  | [], _ => true
  | _ :: _, [] => false
  | p :: ps, c :: cs => p = c && listPrefixAt ps cs

/-- Total comparison of version strings through `parseSemver` (an
unparseable string sorts below every parseable one; the scan only ever
sorts parseable ones, where this is exactly semver precedence). -/
def svCompareStr (a b : String) : Ordering :=
  match parseSemver a, parseSemver b with
  | some x, some y => compareSemver x y
  | some _, none => Ordering.gt
  | none, some _ => Ordering.lt
  | none, none => Ordering.eq

/-- The order in which `versions.sort((a, b) => semver.rcompare(a, b))`
leaves the list: `rcompare a b ≤ 0`, i.e. descending semver precedence. -/
def rcompareLe (a b : String) : Prop := svCompareStr b a ≠ Ordering.gt

instance : DecidableRel rcompareLe :=
  fun a b => inferInstanceAs (Decidable (svCompareStr b a ≠ Ordering.gt))

/-- The suffixes scanned by `getExtensionVersionFromDir`: directory
entries with the `<extensionId>-` prefix, prefix stripped, restricted to
valid semver strings. -/
def parseableSuffixes (entries : List String) (extensionId : String) : List String :=
  ((entries.filter (fun f => listPrefixAt (extensionId ++ "-").data f.data)).map
    (fun f => String.mk (f.data.drop (extensionId ++ "-").data.length))).filter
    (fun v => (parseSemver v).isSome)

/-- `getExtensionVersionFromDir` (index.js 1782–1811, cli-manager.js
321–343): collect the matching entries, keep the `semver.valid` suffixes,
sort them descending by `semver.rcompare` and return the first, `null`
when nothing parseable remains. -/
def getExtensionVersionFromDir (entries : List String) (extensionId : String) :
    Option String :=
  (List.insertionSort rcompareLe (parseableSuffixes entries extensionId)).head?

/-! ## Fanout source-directory choice (C10) -/

/-- Plain lexicographic string order by code point: the order of a
JavaScript default `sort()`. -/
def strLeLex (a b : String) : Prop := lexCmp cmpChar a.data b.data ≠ Ordering.gt

instance : DecidableRel strLeLex :=
  fun a b => inferInstanceAs (Decidable (lexCmp cmpChar a.data b.data ≠ Ordering.gt))

/-- The source-directory selection of `copyExtensionToAllProfiles`
(index.js 960–973): `extensionDirs.sort().pop()` over the entries with
the extension prefix — a default (lexicographic) sort, then the last
element. -/
def chooseSourceDir (extensionDirs : List String) : Option String :=
  (List.insertionSort strLeLex
    (extensionDirs.filter
      (fun d => listPrefixAt "augment.vscode-augment-".data d.data))).getLast?

/-! ## Artifact download with retry (C5) -/

/-- One download attempt as observed by `downloadVsix`: either the fetch
throws (network error / timeout), or a response arrives with a status
code and a body of some length. -/
inductive AttemptResult where
  | netError
  | resp (status : Nat) (bodyLen : Nat)

/-- `response.ok`: HTTP status in the 2xx range. -/
def respOk (status : Nat) : Bool := 200 ≤ status && status < 300

/-- An attempt is accepted only when the response is ok and the received
buffer is non-empty (`buffer.length === 0` throws). -/
def attemptSucceeds : AttemptResult → Bool
  | AttemptResult.netError => false
  | AttemptResult.resp status bodyLen => respOk status && bodyLen != 0

/-- The retry loop of `downloadVsix` (index.js 2124–2187): up to three
attempts; after a failed attempt `k` that is not the last, a delay of
`2000 * k` ms.  Returns the successful attempt number and the accumulated
delay, or the final error. -/
def downloadLoop (attempts : Nat → AttemptResult) :
    Nat → Nat → Nat → Except String (Nat × Nat)
  | _, 0, _ => Except.error "Download failed after 3 attempts"
  | k, fuel + 1, acc =>
    if attemptSucceeds (attempts k) then Except.ok (k, acc)
    else downloadLoop attempts (k + 1) fuel (acc + if fuel = 0 then 0 else 2000 * k)

/-- `downloadVsix`: three attempts starting at attempt 1 with no delay
accumulated yet. -/
def downloadVsix (attempts : Nat → AttemptResult) : Except String (Nat × Nat) :=
  downloadLoop attempts 1 3 0

/-! ## Verification and artifact cleanup at the end of a run (C1) -/

/-- One target's verification in `verifyInstallations` (index.js
2222–2263): five attempts, each comparing the observed version of that
attempt against the expected version by string equality. -/
def verifyTarget (observed : Nat → Option String) (expected : String) : Bool :=
  (List.range 5).any (fun k => observed (k + 1) = some expected)

/-- `cleanupFile` (index.js 2265–2279) outside dry-run: `unlinkSync` when
the file exists — afterwards the file is gone. -/
def cleanupFile (_present : Bool) : Bool := false

/-- The observable outcome of the download→install→verify tail of a run. -/
structure RunOutcome where
  fatal : Bool
  verified : Bool
  artifactOnDisk : Bool
deriving DecidableEq

/-- What a run sees of the outside world after target selection. -/
structure RunEnv where
  download : Nat → AttemptResult
  observed : Nat → Option String

/-- The tail of `AugmentMonitor.run` (index.js 2331–2418): download the
artifact (fatal on final failure, before any file exists), install,
verify, and in the `finally` block always call `cleanupFile` on the
downloaded path — on the verified and on the verification-failed path
alike. -/
def runEpilogue (env : RunEnv) (expectedVersion : String) : RunOutcome :=
  match downloadVsix env.download with
  | Except.error _ => { fatal := true, verified := false, artifactOnDisk := false }
  | Except.ok _ =>
    { fatal := false
      verified := verifyTarget env.observed expectedVersion
      artifactOnDisk := cleanupFile true }

/-! ## IDE detection (C3) -/

/-- Result of one filesystem existence probe: found, absent, or an
exception while probing. -/
inductive FsProbe where
  | found
  | absent
  | throws
deriving DecidableEq

/-- The environment one target's detection runs against. -/
structure TargetEnv where
  cliOk : Bool
  onDarwin : Bool
  macPath : FsProbe
  extDir : FsProbe

/-- Per-target detection (index.js 1628–1700): the version-command probe
first; on its failure the fixed macOS binary path (only on darwin), then
the extensions-directory marker.  A probe exception escapes to the
per-target catch (`Except.error`); otherwise `ok b` says whether the
target was detected. -/
def detectTarget (e : TargetEnv) : Except Unit Bool :=
  if e.cliOk then Except.ok true
  else
    match (if e.onDarwin then e.macPath else FsProbe.absent) with
    | FsProbe.throws => Except.error ()
    | FsProbe.found => Except.ok true
    | FsProbe.absent =>
      match e.extDir with
      | FsProbe.throws => Except.error ()
      | FsProbe.found => Except.ok true
      | FsProbe.absent => Except.ok false

/-- A supported target with its priority and its probe environment. -/
structure TargetSpec where
  name : String
  priority : Nat
  env : TargetEnv

/-- A target survives detection iff its own probes detect it; a caught
per-target exception counts as not detected. -/
def targetDetected (t : TargetSpec) : Bool :=
  match detectTarget t.env with
  | Except.ok b => b
  | Except.error _ => false

/-- Priority order of detected targets (lower number preferred). -/
def prioLe (a b : TargetSpec) : Prop := a.priority ≤ b.priority

instance : DecidableRel prioLe := fun a b => Nat.decLe a.priority b.priority

/-- `detectAvailableIDEs` (index.js 1625–1708): every target's detection
runs in its own try/catch, survivors are sorted by priority, and an empty
result throws the fatal "No supported IDE found" error. -/
def detectAvailableIDEs (targets : List TargetSpec) : Except String (List String) :=
  let available := (List.insertionSort prioLe (targets.filter targetDetected)).map
    (fun t => t.name)
  if available.isEmpty then Except.error "No supported IDE found (Cursor or VS Code)"
  else Except.ok available

/-! ## Latest-version resolution (C7) -/

/-- One entry of the `versions` array of a gallery extension. -/
structure VersionEntry where
  version : String
deriving DecidableEq

/-- One entry of the `extensions` array of a gallery query result. -/
structure ExtensionEntry where
  versions : List VersionEntry
deriving DecidableEq

/-- One entry of the `results` array of the gallery response body. -/
structure QueryResult where
  extensions : List ExtensionEntry
deriving DecidableEq

/-- The parsed gallery response body. -/
structure GalleryData where
  results : List QueryResult
deriving DecidableEq

/-- The structured query's outcome: the request throws, or a response
arrives (ok flag; `none` for a body that fails to parse as JSON). -/
inductive PrimaryOutcome where
  | netThrow
  | resp (ok : Bool) (data : Option GalleryData)

/-- The fallback page fetch's outcome. -/
inductive FallbackOutcome where
  | netThrow
  | resp (ok : Bool) (html : String)

/-- Which strategy produced the resolved version. -/
inductive Provenance where
  | primary
  | fallback
deriving DecidableEq

/-- Leftmost occurrence of `lit` followed by a non-empty capture up to a
required closing character: the shape of the `/"version":"([^"]+)"/`
style patterns. -/
def captureDelimited (lit : List Char) (closing : Char) : List Char → Option (List Char)
  | [] => none
  | c :: cs =>
    if listPrefixAt lit (c :: cs) then
      let after := (c :: cs).drop lit.length
      let cap := after.takeWhile (fun x => x ≠ closing)
      if cap.length ≠ 0 ∧ (after.drop cap.length).head? = some closing then some cap
      else captureDelimited lit closing cs
    else captureDelimited lit closing cs

/-- Case-insensitive match of one pattern character (pattern written in
lowercase) against an input character. -/
def charCI (p c : Char) : Bool := c = p || c.toNat + 32 = p.toNat

/-- Case-insensitive prefix test. -/
def listPrefixCI : List Char → List Char → Bool
  | [], _ => true
  | _ :: _, [] => false
  | p :: ps, c :: cs => charCI p c && listPrefixCI ps cs

/-- Whitespace for the `\s+` of the loose textual pattern. -/
def isWs (c : Char) : Bool := c = ' ' || c = '\t' || c = '\n' || c = '\r'

/-- `[0-9]+\.[0-9]+\.[0-9]+` at the current position. -/
def matchDotted (l : List Char) : Option (List Char) :=
  let d1 := l.takeWhile isDig
  if d1.isEmpty then none
  else
    match l.drop d1.length with
    | '.' :: r2 =>
      let d2 := r2.takeWhile isDig
      if d2.isEmpty then none
      else
        match r2.drop d2.length with
        | '.' :: r3 =>
          let d3 := r3.takeWhile isDig
          if d3.isEmpty then none
          else some (d1 ++ '.' :: (d2 ++ '.' :: d3))
        | _ => none
    | _ => none

/-- Leftmost match of `/Version\s+([0-9]+\.[0-9]+\.[0-9]+)/i`. -/
def matchVersionText : List Char → Option (List Char)
  | [] => none
  | c :: cs =>
    if listPrefixCI "version".data (c :: cs) then
      let after := (c :: cs).drop 7
      let ws := after.takeWhile isWs
      if ws.isEmpty then matchVersionText cs
      else
        match matchDotted (after.drop ws.length) with
        | some v => some v
        | none => matchVersionText cs
    else matchVersionText cs

/-- The ordered extraction patterns of `getLatestVersionFallback`
(index.js 2008–2025): the structured `"version":"…"` fragment first, then
the loose `Version x.y.z` text, then `"Version":"…"`, then
`data-version="…"`; the first match wins. -/
def fallbackPatterns (html : List Char) : Option (List Char) :=
  match captureDelimited ("\"version\":\"").data '"' html with
  | some v => some v
  | none =>
    match matchVersionText html with
    | some v => some v
    | none =>
      match captureDelimited ("\"Version\":\"").data '"' html with
      | some v => some v
      | none => captureDelimited ("data-version=\"").data '"' html

/-- `getLatestVersionFallback` (index.js 1992–2030): fetch the item page,
fail on a non-ok response, try the patterns in order, fail when none
matches. -/
def getLatestVersionFallback (f : FallbackOutcome) : Except String String :=
  match f with
  | FallbackOutcome.netThrow => Except.error "fallback request failed"
  | FallbackOutcome.resp ok html =>
    if !ok then Except.error "Marketplace page failed"
    else
      match fallbackPatterns html.data with
      | some v => Except.ok (String.mk v)
      | none => Except.error "Could not find version in marketplace page"

/-- `getLatestVersion` (index.js 1942–1990): POST the structured query;
on a non-ok response, an unparseable body, a missing
`results[0].extensions[0]` chain, or an exception while reading
`versions[0].version`, fall back to the page scrape; the error of the
fallback is the error of the whole resolution. -/
def getLatestVersion (p : PrimaryOutcome) (f : FallbackOutcome) :
    Except String (String × Provenance) :=
  let fb := (getLatestVersionFallback f).map (fun v => (v, Provenance.fallback))
  match p with
  | PrimaryOutcome.netThrow => fb
  | PrimaryOutcome.resp ok data =>
    if !ok then fb
    else
      match data with
      | none => fb
      | some d =>
        match d.results.head? with
        | none => fb
        | some r0 =>
          match r0.extensions.head? with
          | none => fb
          | some e0 =>
            match e0.versions.head? with
            | none => fb
            | some v0 => Except.ok (v0.version, Provenance.primary)

/-- The failure condition of the structured query, read off the same
checks: request throw, non-ok status, unparseable body, or a broken
`results[0].extensions[0].versions[0]` chain. -/
def primaryFails (p : PrimaryOutcome) : Bool :=
  match p with
  | PrimaryOutcome.netThrow => true
  | PrimaryOutcome.resp ok data =>
    !ok ||
      match data with
      | none => true
      | some d =>
        match d.results.head? with
        | none => true
        | some r0 =>
          match r0.extensions.head? with
          | none => true
          | some e0 => e0.versions.isEmpty

/-! ## Per-profile extension registry update (C4) -/

/-- The `identifier` block of a registry record (its `id` may be
missing). -/
structure ExtIdent where
  id : Option String
deriving DecidableEq

/-- One record of a profile's `extensions.json` array.  The `location`
and `metadata` blocks are constants irrelevant to the claims and are
summarized by `relativeLocation`. -/
structure ExtRecord where
  identifier : Option ExtIdent
  version : String
  relativeLocation : String
deriving DecidableEq

/-- Substring test (`String.prototype.includes`). -/
def containsSub (needle : List Char) : List Char → Bool
  | [] => needle.isEmpty
  | c :: cs => listPrefixAt needle (c :: cs) || containsSub needle cs

/-- A record the rewrite removes: identifier present, id present, and the
id contains `augment.vscode-augment`. -/
def isAugmentRecord (r : ExtRecord) : Bool :=
  match r.identifier with
  | none => false
  | some i =>
    match i.id with
    | none => false
    | some s => containsSub ("augment.vscode-augment").data s.data

/-- The capture of `/augment\.vscode-augment-(.+)$/`: everything after
the leftmost occurrence of the literal, required non-empty. -/
def extractDirVersionChars (lit : List Char) : List Char → Option (List Char)
  | [] => none
  | c :: cs =>
    if listPrefixAt lit (c :: cs) ∧ ((c :: cs).drop lit.length).length ≠ 0 then
      some ((c :: cs).drop lit.length)
    else extractDirVersionChars lit cs

/-- The version put into the fresh record: the directory-name capture, or
the `'0.551.0'` fallback when the pattern does not match. -/
def extractDirVersion (dirName : String) : String :=
  match extractDirVersionChars ("augment.vscode-augment-").data dirName.data with
  | some v => String.mk v
  | none => "0.551.0"

/-- The freshly constructed registry record for the newly installed
version. -/
def newAugmentRecord (extensionDirName : String) : ExtRecord :=
  { identifier := some ⟨some "augment.vscode-augment"⟩
    version := extractDirVersion extensionDirName
    relativeLocation := extensionDirName }

/-- `updateProfileExtensionsJson` (index.js 1033–1095) on an existing,
parsed registry array: drop every record whose identifier id contains the
augment id, append the fresh record, write the array back. -/
def updateProfileExtensionsJson (existing : List ExtRecord)
    (extensionDirName : String) : List ExtRecord :=
  (existing.filter (fun ext => !isAugmentRecord ext)) ++ [newAugmentRecord extensionDirName]

/-! ## Profile fanout (C8) -/

/-- One discovered profile and whether its fanout steps would succeed.
`registryOk` is the registry rewrite; its failure is caught inside
`updateProfileExtensionsJson` itself. -/
structure ProfileEnv where
  name : String
  copyOk : Bool
  registryOk : Bool

/-- The environment a fanout install runs against. -/
structure FanoutEnv where
  profiles : List ProfileEnv
  defaultInstallOk : Bool
  fallbackInstallOk : Bool
  extDirExists : Bool
  extensionDirs : List String

/-- The observable result of `installExtensionInAllCursorProfiles`. -/
inductive InstallResult where
  | defaultOnly
  | fanoutDone (profileOutcomes : List (String × Bool))
  | fallbackInstalled
  | failed
deriving DecidableEq

/-- Discriminator for the failed outcome. -/
def isFailedResult : InstallResult → Bool
  | InstallResult.failed => true
  | _ => false

/-- `copyExtensionToAllProfiles` (index.js 948–1008): bail out (with only
a log line) when the default extensions directory or a matching source
directory is missing; otherwise copy into every profile inside a
per-profile try/catch.  A registry-update failure is swallowed inside
`updateProfileExtensionsJson`, so a profile's reported outcome is its
copy outcome alone. -/
def copyExtensionToAllProfiles (env : FanoutEnv) : List (String × Bool) :=
  if !env.extDirExists then []
  else
    match chooseSourceDir env.extensionDirs with
    | none => []
    | some _ => env.profiles.map (fun p => (p.name, p.copyOk))

/-- `installExtensionInAllCursorProfiles` (index.js 904–946): with no
profiles, a plain default install; otherwise install to the default
profile first and fan out only on success.  Any exception inside the
outer try — in particular a default-install failure — reaches a catch
that retries the plain default install once; the target fails only when
that fallback also fails. -/
def installExtensionInAllCursorProfiles (env : FanoutEnv) : InstallResult :=
  if env.profiles.isEmpty then
    if env.defaultInstallOk then InstallResult.defaultOnly
    else if env.fallbackInstallOk then InstallResult.fallbackInstalled
    else InstallResult.failed
  else
    if env.defaultInstallOk then
      InstallResult.fanoutDone (copyExtensionToAllProfiles env)
    else if env.fallbackInstallOk then InstallResult.fallbackInstalled
    else InstallResult.failed

/-! ### Lemmas towards idempotence of `normalizeVersion` -/

theorem toDigitsRevGo_fuel : ∀ n f1 f2, n ≤ f1 → n ≤ f2 →
    toDigitsRevGo f1 n = toDigitsRevGo f2 n := by
  intro n
  induction n using Nat.strong_induction_on with
  | _ n ih =>
    intro f1 f2 h1 h2
    match n, f1, f2, h1, h2 with
    | 0, f1, f2, _, _ =>
      cases f1 <;> cases f2 <;> rfl
    | m + 1, a + 1, b + 1, h1, h2 =>
      show digitChar ((m + 1) % 10) :: toDigitsRevGo a ((m + 1) / 10)
        = digitChar ((m + 1) % 10) :: toDigitsRevGo b ((m + 1) / 10)
      have hq : (m + 1) / 10 ≤ m := by omega
      rw [ih ((m + 1) / 10) (by omega) a b (by omega) (by omega)]

theorem toDigitsRev_zero : toDigitsRev 0 = [] := rfl

theorem toDigitsRev_succ (n : Nat) :
    toDigitsRev (n + 1) = digitChar ((n + 1) % 10) :: toDigitsRev ((n + 1) / 10) := by
  show digitChar ((n + 1) % 10) :: toDigitsRevGo n ((n + 1) / 10)
    = digitChar ((n + 1) % 10) :: toDigitsRevGo ((n + 1) / 10) ((n + 1) / 10)
  rw [toDigitsRevGo_fuel ((n + 1) / 10) n ((n + 1) / 10) (by omega) (Nat.le_refl _)]


theorem valExt_append_single (val : Nat) (xs : List Char) (c : Char) :
    valExt val (xs ++ [c]) = 10 * valExt val xs + dval c := by
  induction xs generalizing val with
  | nil => rfl
  | cons x xs ih =>
    rw [List.cons_append,
      show valExt val (x :: (xs ++ [c])) = valExt (10 * val + dval x) (xs ++ [c]) from rfl,
      show valExt val (x :: xs) = valExt (10 * val + dval x) xs from rfl]
    exact ih (10 * val + dval x)

theorem digitChar_isDig {d : Nat} (h : d < 10) : isDig (digitChar d) = true := by
  interval_cases d <;> decide

theorem dval_digitChar {d : Nat} (h : d < 10) : dval (digitChar d) = d := by
  interval_cases d <;> decide

theorem valExt_toDigitsRev (n : Nat) :
    ∀ val, valExt val (toDigitsRev n).reverse = val * 10 ^ (toDigitsRev n).length + n := by
  induction n using Nat.strong_induction_on with
  | _ n ih =>
    intro val
    cases n with
    | zero =>
      rw [toDigitsRev_zero]
      show val = val * 10 ^ (0:Nat) + 0
      simp
    | succ m =>
      rw [toDigitsRev_succ]
      simp only [List.reverse_cons, List.length_cons]
      rw [valExt_append_single, ih ((m + 1) / 10) (Nat.div_lt_self (Nat.succ_pos m) (by omega)),
        dval_digitChar (Nat.mod_lt _ (by omega)), pow_succ]
      have hmod : 10 * ((m + 1) / 10) + (m + 1) % 10 = m + 1 := by omega
      calc 10 * (val * 10 ^ (toDigitsRev ((m + 1) / 10)).length + (m + 1) / 10) + (m + 1) % 10
          = val * (10 ^ (toDigitsRev ((m + 1) / 10)).length * 10)
            + (10 * ((m + 1) / 10) + (m + 1) % 10) := by ring
        _ = val * (10 ^ (toDigitsRev ((m + 1) / 10)).length * 10) + (m + 1) := by rw [hmod]

theorem toDigitsRev_all_dig (n : Nat) : ∀ c ∈ toDigitsRev n, isDig c = true := by
  induction n using Nat.strong_induction_on with
  | _ n ih =>
    match n with
    | 0 => intro c hc; simp [toDigitsRev_zero] at hc
    | m + 1 =>
      intro c hc
      rw [toDigitsRev_succ] at hc
      rcases List.mem_cons.mp hc with h | h
      · subst h; exact digitChar_isDig (Nat.mod_lt _ (by omega))
      · exact ih ((m + 1) / 10) (Nat.div_lt_self (Nat.succ_pos m) (by omega)) c h

theorem toDigitsRev_length_le {n k : Nat} (h : n < 10 ^ k) :
    (toDigitsRev n).length ≤ k := by
  induction n using Nat.strong_induction_on generalizing k with
  | _ n ih =>
    match n with
    | 0 => simp [toDigitsRev_zero]
    | m + 1 =>
      rw [toDigitsRev_succ]
      simp only [List.length_cons]
      have hk : 1 ≤ k := by
        by_contra hk
        have : k = 0 := by omega
        subst this
        simp at h
      have hdiv : (m + 1) / 10 < 10 ^ (k - 1) := by
        have : (m + 1) < 10 ^ (k - 1) * 10 := by
          have : 10 ^ (k - 1) * 10 = 10 ^ k := by
            have : k - 1 + 1 = k := by omega
            calc 10 ^ (k - 1) * 10 = 10 ^ (k - 1 + 1) := by ring
              _ = 10 ^ k := by rw [this]
          omega
        omega
      have := ih ((m + 1) / 10) (Nat.div_lt_self (Nat.succ_pos m) (by omega)) hdiv
      omega

theorem natToChars_all_dig (n : Nat) : ∀ c ∈ natToChars n, isDig c = true := by
  intro c hc
  unfold natToChars at hc
  split at hc
  · rcases List.mem_singleton.mp hc with h
    subst h; decide
  · exact toDigitsRev_all_dig n c (List.mem_reverse.mp hc)

theorem natToChars_ne_nil (n : Nat) : natToChars n ≠ [] := by
  unfold natToChars
  split
  · simp
  · intro h
    have h2 := List.reverse_eq_nil_iff.mp h
    rename_i hn
    match n, hn, h2 with
    | m + 1, _, h2 => rw [toDigitsRev_succ] at h2; exact absurd h2 (by simp)

theorem natToChars_length_pos (n : Nat) : 1 ≤ (natToChars n).length := by
  cases h : natToChars n with
  | nil => exact absurd h (natToChars_ne_nil n)
  | cons x xs => simp

theorem natToChars_val (n : Nat) : digitsVal (natToChars n) = n := by
  unfold natToChars digitsVal
  split
  · rename_i h; subst h; decide
  · rw [valExt_toDigitsRev]; ring

theorem natToChars_length_le {n : Nat} (h : n < 10 ^ 16) :
    (natToChars n).length ≤ 16 := by
  unfold natToChars
  split
  · simp
  · rw [List.length_reverse]
    exact toDigitsRev_length_le h

theorem dval_le_of_isDig {c : Char} (h : isDig c = true) : dval c ≤ 9 := by
  simp only [isDig, Bool.and_eq_true, decide_eq_true_eq] at h
  unfold dval
  omega

theorem valExt_lt (ds : List Char) (hd : ∀ c ∈ ds, isDig c = true) :
    ∀ B val, val < B → valExt val ds < B * 10 ^ ds.length := by
  induction ds with
  | nil =>
    intro B val hv
    show val < B * 10 ^ ([] : List Char).length
    simpa using hv
  | cons c cs ih =>
    intro B val hv
    have hdig : dval c ≤ 9 := dval_le_of_isDig (hd c (List.mem_cons_self c cs))
    have step : 10 * val + dval c < B * 10 := by omega
    have hstep := ih (fun x hx => hd x (List.mem_cons_of_mem c hx)) (B * 10)
      (10 * val + dval c) step
    show valExt (10 * val + dval c) cs < B * 10 ^ (c :: cs).length
    calc valExt (10 * val + dval c) cs < B * 10 * 10 ^ cs.length := hstep
      _ = B * 10 ^ (c :: cs).length := by
          simp only [List.length_cons, pow_succ]
          ring

theorem digitsVal_lt (ds : List Char) (hd : ∀ c ∈ ds, isDig c = true) :
    digitsVal ds < 10 ^ ds.length := by
  have := valExt_lt ds hd 1 0 (by omega)
  simpa [digitsVal] using this

/-- `scanMajor` only ever returns values below `10^16`. -/
theorem scanMajor_lt : ∀ (cs : List Char) (len val : Nat), val < 10 ^ len →
    ∀ a rest, scanMajor cs len val = some (a, rest) → a < 10 ^ 16 := by
  intro cs
  induction cs with
  | nil =>
    intro len val hv a rest h
    unfold scanMajor at h
    split at h
    · rename_i hc
      injection h with h1
      injection h1 with h1 h2
      subst h1
      calc val < 10 ^ len := hv
        _ ≤ 10 ^ 16 := Nat.pow_le_pow_right (by omega) hc.2
    · exact absurd h (by simp)
  | cons c cs ih =>
    intro len val hv a rest h
    unfold scanMajor at h
    split at h
    · rename_i hdig
      have hlt : 10 * val + dval c < 10 ^ (len + 1) := by
        have h9 : dval c ≤ 9 := dval_le_of_isDig hdig
        have hp : 10 ^ (len + 1) = 10 * 10 ^ len := by ring
        omega
      exact ih (len + 1) (10 * val + dval c) hlt a rest h
    · split at h
      · rename_i hc
        injection h with h1
        injection h1 with h1 h2
        subst h1
        calc val < 10 ^ len := hv
          _ ≤ 10 ^ 16 := Nat.pow_le_pow_right (by omega) hc.2
      · exact ih 0 0 (by omega) a rest h

/-- `parseDotRun` only ever returns values below `10^16`. -/
theorem parseDotRun_lt (cs : List Char) (b : Nat) (rest : List Char)
    (h : parseDotRun cs = some (b, rest)) : b < 10 ^ 16 := by
  unfold parseDotRun at h
  split at h
  · rename_i cs2
    simp only at h
    split at h
    · rename_i hlen
      injection h with h1
      injection h1 with h1 h2
      subst h1
      have hd : ∀ c ∈ cs2.takeWhile isDig, isDig c = true := by
        intro c hc
        exact List.mem_takeWhile_imp hc
      calc digitsVal (cs2.takeWhile isDig) < 10 ^ (cs2.takeWhile isDig).length :=
            digitsVal_lt _ hd
        _ ≤ 10 ^ 16 := Nat.pow_le_pow_right (by omega) hlen.2
    · exact absurd h (by simp)
  · exact absurd h (by simp)

/-- Scanning a full digit run followed by a non-digit (or nothing):
`scanMajor` consumes exactly the run. -/
theorem scanMajor_digits (ds : List Char) (hd : ∀ c ∈ ds, isDig c = true) :
    ∀ (rest : List Char) (len val : Nat),
      (∀ c, rest = c :: (rest.tail) → isDig c = false) →
      1 ≤ len + ds.length → len + ds.length ≤ 16 →
      scanMajor (ds ++ rest) len val = some (valExt val ds, rest) := by
  induction ds with
  | nil =>
    intro rest len val hrest h1 h16
    rw [List.nil_append, show valExt val [] = val from rfl]
    match rest with
    | [] =>
      unfold scanMajor
      simp only [List.length_nil] at h1 h16
      rw [if_pos ⟨by omega, by omega⟩]
    | c :: cs =>
      have hc := hrest c rfl
      unfold scanMajor
      rw [if_neg (by simp [hc])]
      simp only [List.length_nil] at h1 h16
      rw [if_pos ⟨by omega, by omega⟩]
  | cons d ds ih =>
    intro rest len val hrest h1 h16
    have hdig := hd d (List.mem_cons_self d ds)
    simp only [List.cons_append]
    unfold scanMajor
    rw [if_pos hdig]
    simp only [List.length_cons] at h1 h16
    rw [ih (fun c hc => hd c (List.mem_cons_of_mem d hc)) rest (len + 1)
      (10 * val + dval d) hrest (by omega) (by omega)]
    rfl

/-- `takeWhile` of a digit run followed by a non-digit head is the run. -/
theorem takeWhile_digits_append (ds rest : List Char)
    (hd : ∀ c ∈ ds, isDig c = true)
    (hrest : ∀ c, rest = c :: rest.tail → isDig c = false) :
    (ds ++ rest).takeWhile isDig = ds ∧ (ds ++ rest).dropWhile isDig = rest := by
  induction ds with
  | nil =>
    simp only [List.nil_append]
    match rest with
    | [] => simp [List.takeWhile, List.dropWhile]
    | c :: cs =>
      have hc := hrest c rfl
      constructor
      · simp [List.takeWhile, hc]
      · simp [List.dropWhile, hc]
  | cons d ds ih =>
    have hdig := hd d (List.mem_cons_self d ds)
    have hih := ih (fun c hc => hd c (List.mem_cons_of_mem d hc))
    constructor
    · rw [List.cons_append, List.takeWhile_cons, if_pos hdig, hih.1]
    · rw [List.cons_append, List.dropWhile_cons, if_pos hdig]
      exact hih.2

/-- `parseDotRun` on `.` + full digit run + non-digit-headed rest. -/
theorem parseDotRun_digits (ds rest : List Char)
    (hd : ∀ c ∈ ds, isDig c = true)
    (hrest : ∀ c, rest = c :: rest.tail → isDig c = false)
    (h1 : 1 ≤ ds.length) (h16 : ds.length ≤ 16) :
    parseDotRun ('.' :: (ds ++ rest)) = some (digitsVal ds, rest) := by
  unfold parseDotRun
  have htw := takeWhile_digits_append ds rest hd hrest
  simp only [htw.1, htw.2]
  rw [if_pos ⟨h1, h16⟩]

/-- Coercing a canonically rendered triple gives back the triple. -/
theorem coerceTriple_renderTriple {a b c : Nat}
    (ha : a < 10 ^ 16) (hb : b < 10 ^ 16) (hc : c < 10 ^ 16) :
    coerceTriple (renderTriple a b c) = some (a, b, c) := by
  have hrest1 : ∀ x, ('.' :: (natToChars b ++ '.' :: natToChars c)) =
      x :: ('.' :: (natToChars b ++ '.' :: natToChars c)).tail → isDig x = false := by
    intro x hx
    injection hx with h1
    subst h1; decide
  have hmaj := scanMajor_digits (natToChars a) (natToChars_all_dig a)
    ('.' :: (natToChars b ++ '.' :: natToChars c)) 0 0 hrest1
    (by have := natToChars_length_pos a; omega)
    (by have := natToChars_length_le ha; omega)
  have hrest2 : ∀ x, ('.' :: natToChars c) = x :: ('.' :: natToChars c).tail →
      isDig x = false := by
    intro x hx
    injection hx with h1
    subst h1; decide
  have hmin := parseDotRun_digits (natToChars b) ('.' :: natToChars c)
    (natToChars_all_dig b) hrest2 (natToChars_length_pos b) (natToChars_length_le hb)
  have hrest3 : ∀ x, ([] : List Char) = x :: ([] : List Char).tail → isDig x = false := by
    intro x hx
    exact absurd hx (by simp)
  have hpat := parseDotRun_digits (natToChars c) [] (natToChars_all_dig c) hrest3
    (natToChars_length_pos c) (natToChars_length_le hc)
  simp only [List.append_nil] at hpat
  unfold coerceTriple renderTriple
  rw [hmaj]
  dsimp only
  rw [hmin]
  dsimp only
  rw [hpat]
  have hva : valExt 0 (natToChars a) = a := natToChars_val a
  have hvb : digitsVal (natToChars b) = b := natToChars_val b
  have hvc : digitsVal (natToChars c) = c := natToChars_val c
  rw [hva, hvb, hvc]

/-- The components produced by `coerceTriple` are below `10^16`. -/
theorem coerceTriple_bounds {s : List Char} {a b c : Nat}
    (h : coerceTriple s = some (a, b, c)) :
    a < 10 ^ 16 ∧ b < 10 ^ 16 ∧ c < 10 ^ 16 := by
  unfold coerceTriple at h
  match hmaj : scanMajor s 0 0 with
  | none => rw [hmaj] at h; exact absurd h (by simp)
  | some (maj, rest) =>
    rw [hmaj] at h
    dsimp only at h
    have ha := scanMajor_lt s 0 0 (by omega) maj rest hmaj
    match hmin : parseDotRun rest with
    | none =>
      rw [hmin] at h
      injection h with h1
      injection h1 with h1 h2
      injection h2 with h2 h3
      subst h1; subst h2; subst h3
      exact ⟨ha, by omega, by omega⟩
    | some (mnr, rest2) =>
      rw [hmin] at h
      dsimp only at h
      have hb := parseDotRun_lt rest mnr rest2 hmin
      match hpat : parseDotRun rest2 with
      | none =>
        rw [hpat] at h
        injection h with h1
        injection h1 with h1 h2
        injection h2 with h2 h3
        subst h1; subst h2; subst h3
        exact ⟨ha, hb, by omega⟩
      | some (pat, rest3) =>
        rw [hpat] at h
        have hc := parseDotRun_lt rest2 pat rest3 hpat
        injection h with h1
        injection h1 with h1 h2
        injection h2 with h2 h3
        subst h1; subst h2; subst h3
        exact ⟨ha, hb, hc⟩

/-! ### Lawfulness of the comparison functions -/

theorem cmpNat_lt_iff {a b : Nat} : cmpNat a b = Ordering.lt ↔ a < b := by
  unfold cmpNat
  split_ifs with h1 h2 <;> simp_all <;> omega

theorem cmpNat_eq_iff {a b : Nat} : cmpNat a b = Ordering.eq ↔ a = b := by
  unfold cmpNat
  split_ifs with h1 h2 <;> simp_all <;> omega

theorem cmpNat_gt_iff {a b : Nat} : cmpNat a b = Ordering.gt ↔ b < a := by
  unfold cmpNat
  split_ifs with h1 h2 <;> simp_all <;> omega

theorem cmpNat_swap (a b : Nat) : cmpNat b a = (cmpNat a b).swap := by
  unfold cmpNat
  split_ifs <;> simp_all [Ordering.swap] <;> omega

theorem charToNat_inj {a b : Char} (h : a.toNat = b.toNat) : a = b := by
  have hv : a.val = b.val := UInt32.toNat.inj h
  exact Char.eq_of_val_eq hv

theorem cmpChar_eq_iff {a b : Char} : cmpChar a b = Ordering.eq ↔ a = b := by
  unfold cmpChar
  rw [cmpNat_eq_iff]
  constructor
  · exact charToNat_inj
  · intro h; rw [h]

theorem cmpChar_swap (a b : Char) : cmpChar b a = (cmpChar a b).swap :=
  cmpNat_swap a.toNat b.toNat

theorem cmpChar_lt_trans {a b c : Char} (h1 : cmpChar a b = Ordering.lt)
    (h2 : cmpChar b c = Ordering.lt) : cmpChar a c = Ordering.lt := by
  unfold cmpChar at *
  rw [cmpNat_lt_iff] at *
  omega

section LexCmpLaws

variable {α : Type} {cmp : α → α → Ordering}

theorem lexCmp_eq_iff (hcmp : ∀ a b, cmp a b = Ordering.eq ↔ a = b) :
    ∀ as bs, lexCmp cmp as bs = Ordering.eq ↔ as = bs := by
  intro as
  induction as with
  | nil => intro bs; cases bs <;> simp [lexCmp]
  | cons a as ih =>
    intro bs
    cases bs with
    | nil => simp [lexCmp]
    | cons b bs =>
      show (match cmp a b with
        | Ordering.eq => lexCmp cmp as bs
        | o => o) = Ordering.eq ↔ a :: as = b :: bs
      rcases h : cmp a b with _ | _ | _
      · constructor
        · intro hh; exact nomatch hh
        · intro hh
          injection hh with h1 h2
          subst h1
          rw [(hcmp a a).mpr rfl] at h
          cases h
      · have hab := (hcmp a b).mp h
        subst hab
        rw [show (match Ordering.eq with
          | Ordering.eq => lexCmp cmp as bs
          | o => o) = lexCmp cmp as bs from rfl, ih bs]
        simp
      · constructor
        · intro hh; exact nomatch hh
        · intro hh
          injection hh with h1 h2
          subst h1
          rw [(hcmp a a).mpr rfl] at h
          cases h

theorem lexCmp_swap (hswap : ∀ a b, cmp b a = (cmp a b).swap) :
    ∀ as bs, lexCmp cmp bs as = (lexCmp cmp as bs).swap := by
  intro as
  induction as with
  | nil => intro bs; cases bs <;> rfl
  | cons a as ih =>
    intro bs
    cases bs with
    | nil => rfl
    | cons b bs =>
      show (match cmp b a with
        | Ordering.eq => lexCmp cmp bs as
        | o => o)
        = (match cmp a b with
        | Ordering.eq => lexCmp cmp as bs
        | o => o).swap
      rw [hswap a b]
      rcases h : cmp a b with _ | _ | _
      · rfl
      · exact ih bs
      · rfl

theorem lexCmp_lt_trans (hcmp : ∀ a b, cmp a b = Ordering.eq ↔ a = b)
    (htr : ∀ a b c, cmp a b = Ordering.lt → cmp b c = Ordering.lt →
      cmp a c = Ordering.lt) :
    ∀ as bs cs, lexCmp cmp as bs = Ordering.lt → lexCmp cmp bs cs = Ordering.lt →
      lexCmp cmp as cs = Ordering.lt := by
  intro as
  induction as with
  | nil =>
    intro bs cs h1 h2
    cases bs with
    | nil => exact nomatch h1
    | cons b bs =>
      cases cs with
      | nil => exact nomatch h2
      | cons c cs => rfl
  | cons a as ih =>
    intro bs cs h1 h2
    cases bs with
    | nil => exact nomatch h1
    | cons b bs =>
      cases cs with
      | nil => exact nomatch h2
      | cons c cs =>
        show (match cmp a c with
          | Ordering.eq => lexCmp cmp as cs
          | o => o) = Ordering.lt
        replace h1 : (match cmp a b with
          | Ordering.eq => lexCmp cmp as bs
          | o => o) = Ordering.lt := h1
        replace h2 : (match cmp b c with
          | Ordering.eq => lexCmp cmp bs cs
          | o => o) = Ordering.lt := h2
        rcases hab : cmp a b with _ | _ | _ <;> rw [hab] at h1
        · rcases hbc : cmp b c with _ | _ | _
          · rw [htr a b c hab hbc]
          · have heq := (hcmp b c).mp hbc
            subst heq
            rw [hab]
          · rw [hbc] at h2
            exact nomatch h2
        · have heq := (hcmp a b).mp hab
          subst heq
          rcases hbc : cmp a c with _ | _ | _
          · rfl
          · rw [hbc] at h2
            exact ih bs cs h1 h2
          · rw [hbc] at h2
            exact nomatch h2
        · exact nomatch h1

end LexCmpLaws

theorem cmpPreId_eq_iff : ∀ p q, cmpPreId p q = Ordering.eq ↔ p = q := by
  intro p q
  cases p with
  | num a =>
    cases q with
    | num b =>
      show cmpNat a b = Ordering.eq ↔ _
      rw [cmpNat_eq_iff]
      simp
    | alpha s => simp [cmpPreId]
  | alpha s =>
    cases q with
    | num b => simp [cmpPreId]
    | alpha t =>
      show lexCmp cmpChar s t = Ordering.eq ↔ _
      rw [lexCmp_eq_iff (fun a b => cmpChar_eq_iff)]
      simp

theorem cmpPreId_swap : ∀ p q, cmpPreId q p = (cmpPreId p q).swap := by
  intro p q
  cases p with
  | num a =>
    cases q with
    | num b => exact cmpNat_swap a b
    | alpha s => rfl
  | alpha s =>
    cases q with
    | num b => rfl
    | alpha t => exact lexCmp_swap cmpChar_swap s t

theorem cmpPreId_lt_trans : ∀ p q r, cmpPreId p q = Ordering.lt →
    cmpPreId q r = Ordering.lt → cmpPreId p r = Ordering.lt := by
  intro p q r h1 h2
  cases p with
  | num a =>
    cases q with
    | num b =>
      cases r with
      | num c =>
        show cmpNat a c = Ordering.lt
        replace h1 : cmpNat a b = Ordering.lt := h1
        replace h2 : cmpNat b c = Ordering.lt := h2
        rw [cmpNat_lt_iff] at *
        omega
      | alpha t => rfl
    | alpha s =>
      cases r with
      | num c => exact nomatch h2
      | alpha t => rfl
  | alpha s =>
    cases q with
    | num b => exact nomatch h1
    | alpha t =>
      cases r with
      | num c => exact nomatch h2
      | alpha u =>
        exact lexCmp_lt_trans (fun a b => cmpChar_eq_iff)
          (fun a b c => cmpChar_lt_trans) s t u h1 h2

theorem preCmp_eq_iff : ∀ as bs, preCmp as bs = Ordering.eq ↔ as = bs := by
  intro as bs
  match as, bs with
  | [], [] => simp [preCmp]
  | [], _ :: _ => simp [preCmp]
  | _ :: _, [] => simp [preCmp]
  | a :: as, b :: bs =>
    show lexCmp cmpPreId (a :: as) (b :: bs) = Ordering.eq ↔ _
    exact lexCmp_eq_iff cmpPreId_eq_iff (a :: as) (b :: bs)

theorem preCmp_swap : ∀ as bs, preCmp bs as = (preCmp as bs).swap := by
  intro as bs
  match as, bs with
  | [], [] => rfl
  | [], _ :: _ => rfl
  | _ :: _, [] => rfl
  | a :: as, b :: bs => exact lexCmp_swap cmpPreId_swap (a :: as) (b :: bs)

theorem preCmp_lt_trans : ∀ as bs cs, preCmp as bs = Ordering.lt →
    preCmp bs cs = Ordering.lt → preCmp as cs = Ordering.lt := by
  intro as bs cs h1 h2
  cases as with
  | nil =>
    cases bs with
    | nil => exact nomatch h1
    | cons b bs => exact nomatch h1
  | cons a as =>
    cases bs with
    | nil =>
      cases cs with
      | nil => exact nomatch h2
      | cons c cs => exact nomatch h2
    | cons b bs =>
      cases cs with
      | nil => rfl
      | cons c cs =>
        exact lexCmp_lt_trans cmpPreId_eq_iff cmpPreId_lt_trans
          (a :: as) (b :: bs) (c :: cs) h1 h2

theorem compareSemver_eq_iff {x y : Semver} :
    compareSemver x y = Ordering.eq ↔ x = y := by
  obtain ⟨xa, xb, xc, xp⟩ := x
  obtain ⟨ya, yb, yc, yp⟩ := y
  unfold compareSemver
  simp only [Ordering.then_eq_eq, cmpNat_eq_iff, preCmp_eq_iff, Semver.mk.injEq]

theorem compareSemver_swap (x y : Semver) :
    compareSemver y x = (compareSemver x y).swap := by
  obtain ⟨xa, xb, xc, xp⟩ := x
  obtain ⟨ya, yb, yc, yp⟩ := y
  unfold compareSemver
  simp only [Ordering.swap_then]
  rw [cmpNat_swap xa ya, cmpNat_swap xb yb, cmpNat_swap xc yc, preCmp_swap xp yp]

theorem compareSemver_lt_trans {x y z : Semver}
    (h1 : compareSemver x y = Ordering.lt) (h2 : compareSemver y z = Ordering.lt) :
    compareSemver x z = Ordering.lt := by
  obtain ⟨xa, xb, xc, xp⟩ := x
  obtain ⟨ya, yb, yc, yp⟩ := y
  obtain ⟨za, zb, zc, zp⟩ := z
  unfold compareSemver at *
  simp only [Ordering.then_eq_lt, cmpNat_lt_iff, cmpNat_eq_iff] at h1 h2 ⊢
  rcases h1 with h1 | ⟨e1, h1⟩
  · rcases h2 with h2 | ⟨e2, h2⟩
    · left; omega
    · left; omega
  · rcases h2 with h2 | ⟨e2, h2⟩
    · left; omega
    · right
      refine ⟨by omega, ?_⟩
      rcases h1 with h1 | ⟨f1, h1⟩
      · rcases h2 with h2 | ⟨f2, h2⟩
        · left; omega
        · left; omega
      · rcases h2 with h2 | ⟨f2, h2⟩
        · left; omega
        · right
          refine ⟨by omega, ?_⟩
          rcases h1 with h1 | ⟨g1, h1⟩
          · rcases h2 with h2 | ⟨g2, h2⟩
            · left; omega
            · left; omega
          · rcases h2 with h2 | ⟨g2, h2⟩
            · left; omega
            · right
              refine ⟨by omega, ?_⟩
              have hyz : yp = zp → preCmp xp yp = Ordering.lt →
                  preCmp xp zp = Ordering.lt := by
                intro he hh; rw [he] at hh; exact hh
              exact preCmp_lt_trans xp yp zp h1 h2

theorem compareSemver_refl (x : Semver) : compareSemver x x = Ordering.eq :=
  compareSemver_eq_iff.mpr rfl

theorem svCompareStr_swap (a b : String) :
    svCompareStr b a = (svCompareStr a b).swap := by
  unfold svCompareStr
  cases parseSemver a <;> cases parseSemver b
  · rfl
  · rfl
  · rfl
  · exact compareSemver_swap _ _

theorem svCompareStr_ne_gt_total (a b : String)
    (h : svCompareStr b a = Ordering.gt) : svCompareStr a b ≠ Ordering.gt := by
  rw [svCompareStr_swap, h]
  decide

theorem svCompareStr_refl (a : String) : svCompareStr a a = Ordering.eq := by
  unfold svCompareStr
  cases parseSemver a
  · rfl
  · exact compareSemver_refl _

theorem svCompareStr_lt_trans {a b c : String}
    (h1 : svCompareStr a b = Ordering.lt) (h2 : svCompareStr b c = Ordering.lt) :
    svCompareStr a c = Ordering.lt := by
  cases ha : parseSemver a <;> cases hb : parseSemver b <;> cases hc : parseSemver c <;>
    simp only [svCompareStr, ha, hb, hc] at h1 h2 ⊢ <;>
    first
      | rfl
      | (simp at h1; done)
      | (simp at h2; done)
      | exact compareSemver_lt_trans h1 h2

theorem svCompareStr_eq_key {a b : String}
    (h : svCompareStr a b = Ordering.eq) : parseSemver a = parseSemver b := by
  cases ha : parseSemver a <;> cases hb : parseSemver b <;>
    simp only [svCompareStr, ha, hb] at h ⊢ <;>
    first
      | rfl
      | (simp at h; done)
      | exact congrArg some (compareSemver_eq_iff.mp h)

theorem svCompareStr_congr_right {a b c : String}
    (h : parseSemver a = parseSemver b) : svCompareStr c a = svCompareStr c b := by
  unfold svCompareStr
  rw [h]

instance : IsTotal String rcompareLe := by
  constructor
  intro a b
  unfold rcompareLe
  by_cases h : svCompareStr b a = Ordering.gt
  · right
    rw [svCompareStr_swap, h]
    decide
  · left
    exact h

instance : IsTrans String rcompareLe := by
  constructor
  intro a b c h1 h2
  unfold rcompareLe at *
  intro hgt
  have hac : svCompareStr a c = Ordering.lt := by
    have := svCompareStr_swap c a
    rw [hgt] at this
    exact this
  rcases ho : svCompareStr b a with _ | _ | _
  · have hbc : svCompareStr b c = Ordering.lt := svCompareStr_lt_trans ho hac
    have : svCompareStr c b = Ordering.gt := by
      have := svCompareStr_swap b c
      rw [hbc] at this
      exact this
    exact h2 this
  · have hkey := svCompareStr_eq_key ho
    have : svCompareStr c b = svCompareStr c a := svCompareStr_congr_right hkey
    rw [this] at h2
    exact h2 hgt
  · exact h1 ho

theorem lexCmpChar_eq_iff : ∀ as bs : List Char,
    lexCmp cmpChar as bs = Ordering.eq ↔ as = bs :=
  lexCmp_eq_iff (fun x y => cmpChar_eq_iff)

theorem lexCmpChar_swap : ∀ as bs : List Char,
    lexCmp cmpChar bs as = (lexCmp cmpChar as bs).swap :=
  lexCmp_swap cmpChar_swap

theorem lexCmpChar_lt_trans : ∀ as bs cs : List Char,
    lexCmp cmpChar as bs = Ordering.lt → lexCmp cmpChar bs cs = Ordering.lt →
      lexCmp cmpChar as cs = Ordering.lt :=
  lexCmp_lt_trans (fun x y => cmpChar_eq_iff) (fun x y z => cmpChar_lt_trans)

instance : IsTotal String strLeLex := by
  constructor
  intro a b
  unfold strLeLex
  by_cases h : lexCmp cmpChar a.data b.data = Ordering.gt
  · right
    rw [lexCmpChar_swap, h]
    decide
  · left
    exact h

instance : IsTrans String strLeLex := by
  constructor
  intro a b c h1 h2
  unfold strLeLex at *
  intro hgt
  have hca : lexCmp cmpChar c.data a.data = Ordering.lt := by
    have := lexCmpChar_swap a.data c.data
    rw [hgt] at this
    exact this
  rcases ho : lexCmp cmpChar a.data b.data with _ | _ | _
  · have hcb : lexCmp cmpChar c.data b.data = Ordering.lt :=
      lexCmpChar_lt_trans c.data a.data b.data hca ho
    have : lexCmp cmpChar b.data c.data = Ordering.gt := by
      have := lexCmpChar_swap c.data b.data
      rw [hcb] at this
      exact this
    exact h2 this
  · have hdata : a.data = b.data := (lexCmpChar_eq_iff _ _).mp ho
    rw [hdata] at hgt
    exact h2 hgt
  · exact h1 ho

instance : IsTotal TargetSpec prioLe := ⟨fun a b => Nat.le_total a.priority b.priority⟩

instance : IsTrans TargetSpec prioLe :=
  ⟨fun _ _ _ h1 h2 => Nat.le_trans h1 h2⟩

/-! ### The head and the last of a sorted list bound every element -/

theorem sorted_head_bounds {α : Type} {r : α → α → Prop} :
    ∀ (l : List α), List.Sorted r l → ∀ m, l.head? = some m →
      ∀ x ∈ l, x = m ∨ r m x := by
  intro l hs m hm x hx
  cases l with
  | nil => cases hm
  | cons a t =>
    injection hm with hm
    subst hm
    rcases List.mem_cons.mp hx with h | h
    · left; exact h
    · right; exact (List.sorted_cons.mp hs).1 x h

theorem sorted_getLast_bounds {α : Type} {r : α → α → Prop} :
    ∀ (l : List α), List.Sorted r l → ∀ m, l.getLast? = some m →
      ∀ x ∈ l, x = m ∨ r x m := by
  intro l
  induction l with
  | nil => intro _ m hm; cases hm
  | cons a t ih =>
    intro hs m hm x hx
    cases t with
    | nil =>
      injection hm with hm
      subst hm
      rcases List.mem_singleton.mp hx with h
      left; exact h
    | cons b t2 =>
      rw [List.getLast?_cons_cons] at hm
      have hsort := List.sorted_cons.mp hs
      rcases List.mem_cons.mp hx with h | h
      · subst h
        right
        have hmem : m ∈ b :: t2 := List.mem_of_mem_getLast? hm
        exact hsort.1 m hmem
      · exact ih hsort.2 m hm x h

/-! ## Claim theorems -/

/-- Claim C9: `normalizeVersion` is idempotent — whenever it succeeds,
re-normalizing its output returns the output unchanged — and the
suffix-qualified input `"0.560.0-universal"` normalizes to `"0.560.0"`,
dropping the non-numeric suffix. -/
theorem C9_normalize_idempotent :
    (∀ v w : String, normalizeVersion v = some w → normalizeVersion w = some w)
    ∧ normalizeVersion "0.560.0-universal" = some "0.560.0" := by
  constructor
  · intro v w h
    unfold normalizeVersion at h
    split at h
    · exact absurd h (by simp)
    · rcases hct : coerceTriple v.data with _ | ⟨a, b, c⟩
      · rw [hct] at h
        exact absurd h (by simp)
      · rw [hct] at h
        simp only [Option.some.injEq] at h
        subst h
        obtain ⟨ha, hb, hc⟩ := coerceTriple_bounds hct
        unfold normalizeVersion
        have hne : String.mk (renderTriple a b c) ≠ "" := by
          intro hcon
          have hdata : renderTriple a b c = [] := congrArg String.data hcon
          unfold renderTriple at hdata
          rcases List.append_eq_nil.mp hdata with ⟨h1, _⟩
          exact natToChars_ne_nil a h1
        rw [if_neg hne]
        have hdata : (String.mk (renderTriple a b c)).data = renderTriple a b c := rfl
        rw [hdata, coerceTriple_renderTriple ha hb hc]
  · decide

/-- Claim C9 witness: the idempotence instance at the normalized form of
`"0.560.0-universal"`. -/
theorem C9_normalize_idempotent_witness :
    normalizeVersion "0.560.0" = some "0.560.0" :=
  C9_normalize_idempotent.1 "0.560.0-universal" "0.560.0"
    C9_normalize_idempotent.2

/-- Claim C2 (code bug): the update decision of `run` and
`checkAllForUpdates` hands the raw strings to `semver.gt` without
normalizing — `normalizeVersion` is defined but never called there — so
an installed `"0.576.0-universal"` against latest `"0.576.0"` is marked
outdated (raw semver treats the suffix as a pre-release below the
release), while the specified normalize-first rule says no update is
needed.  The absent-version and plainly-newer cases agree with the
spec. -/
theorem C2_needsUpdate_raw_semver_divergence :
    isOutdated (some "0.576.0-universal") "0.576.0" = some true
    ∧ needsUpdateSpec (some "0.576.0-universal") "0.576.0" = false
    ∧ isOutdated (some "0.560.0") "0.576.0" = some true
    ∧ isOutdated (some "0.576.0") "0.576.0" = some false
    ∧ isOutdated none "0.576.0" = some true := by
  refine ⟨?_, ?_, ?_, ?_, ?_⟩ <;> decide

/-- Claim C1 (code bug): the `finally` block of `run` always deletes the
downloaded artifact, also when verification has exhausted its five
attempts without a match — the artifact is never retained on disk.  The
second conjunct evaluates a run in which the download succeeded and every
verification attempt observed a version different from the expected one:
the run ends unverified, not fatal, and with the artifact deleted. -/
theorem C1_artifact_always_deleted :
    (∀ (env : RunEnv) (expected : String),
      (runEpilogue env expected).artifactOnDisk = false)
    ∧ runEpilogue
        { download := fun _ => AttemptResult.resp 200 1024
          observed := fun _ => some "0.0.1" } "9.9.9"
      = { fatal := false, verified := false, artifactOnDisk := false } := by
  constructor
  · intro env expected
    unfold runEpilogue
    cases downloadVsix env.download <;> rfl
  · rfl

/-- Claim C5: the download loop makes at most three attempts, consults
no attempt beyond the third, sleeps `2000·k` ms after failed attempt `k`
(so a success on attempt 3 has accumulated `2000 + 4000` ms), accepts an
attempt only for a 2xx status with a non-empty body, and a run whose
download exhausts all attempts is fatal. -/
theorem C5_download_retry :
    (∀ f : Nat → AttemptResult,
      downloadVsix f =
        if attemptSucceeds (f 1) then Except.ok (1, 0)
        else if attemptSucceeds (f 2) then Except.ok (2, 2000)
        else if attemptSucceeds (f 3) then Except.ok (3, 6000)
        else Except.error "Download failed after 3 attempts")
    ∧ (∀ f g : Nat → AttemptResult, f 1 = g 1 → f 2 = g 2 → f 3 = g 3 →
        downloadVsix f = downloadVsix g)
    ∧ (∀ (f : Nat → AttemptResult) (k d : Nat), downloadVsix f = Except.ok (k, d) →
        k ≤ 3 ∧ match f k with
          | AttemptResult.netError => False
          | AttemptResult.resp status len => (200 ≤ status ∧ status < 300) ∧ len ≠ 0)
    ∧ downloadVsix
        (fun k => if k = 3 then AttemptResult.resp 200 1024 else AttemptResult.resp 500 9)
      = Except.ok (3, 6000)
    ∧ (∀ (env : RunEnv) (expected e : String),
        downloadVsix env.download = Except.error e →
        (runEpilogue env expected).fatal = true) := by
  have hchar : ∀ f : Nat → AttemptResult,
      downloadVsix f =
        if attemptSucceeds (f 1) then Except.ok (1, 0)
        else if attemptSucceeds (f 2) then Except.ok (2, 2000)
        else if attemptSucceeds (f 3) then Except.ok (3, 6000)
        else Except.error "Download failed after 3 attempts" := by
    intro f
    have e1 : downloadVsix f =
        if attemptSucceeds (f 1) then Except.ok (1, 0)
        else downloadLoop f 2 2 (0 + if (2:Nat) = 0 then 0 else 2000 * 1) := rfl
    have e2 : downloadLoop f 2 2 2000 =
        if attemptSucceeds (f 2) then Except.ok (2, 2000)
        else downloadLoop f 3 1 (2000 + if (1:Nat) = 0 then 0 else 2000 * 2) := rfl
    have e3 : downloadLoop f 3 1 6000 =
        if attemptSucceeds (f 3) then Except.ok (3, 6000)
        else downloadLoop f 4 0 (6000 + if (0:Nat) = 0 then 0 else 2000 * 3) := rfl
    have e4 : downloadLoop f 4 0 (6000 + if (0:Nat) = 0 then 0 else 2000 * 3)
        = Except.error "Download failed after 3 attempts" := rfl
    rw [e1]
    norm_num
    by_cases h1 : attemptSucceeds (f 1)
    · rw [if_pos h1, if_pos h1]
    · rw [if_neg h1, if_neg h1, e2]
      by_cases h2 : attemptSucceeds (f 2)
      · rw [if_pos h2, if_pos h2]
      · rw [if_neg h2, if_neg h2]
        norm_num
        rw [e3]
        by_cases h3 : attemptSucceeds (f 3)
        · rw [if_pos h3, if_pos h3]
        · rw [if_neg h3, if_neg h3, e4]
  refine ⟨hchar, ?_, ?_, ?_, ?_⟩
  · intro f g hf1 hf2 hf3
    rw [hchar f, hchar g, hf1, hf2, hf3]
  · intro f k d h
    rw [hchar f] at h
    split_ifs at h with h1 h2 h3
    · injection h with hkd
      injection hkd with hk hd
      subst hk
      refine ⟨by omega, ?_⟩
      rcases hf : f 1 with _ | ⟨status, len⟩ <;> rw [hf] at h1
      · exact absurd h1 (by decide)
      · simp only [attemptSucceeds, respOk, Bool.and_eq_true, decide_eq_true_eq,
          bne_iff_ne, ne_eq] at h1
        exact ⟨⟨h1.1.1, h1.1.2⟩, h1.2⟩
    · injection h with hkd
      injection hkd with hk hd
      subst hk
      refine ⟨by omega, ?_⟩
      rcases hf : f 2 with _ | ⟨status, len⟩ <;> rw [hf] at h2
      · exact absurd h2 (by decide)
      · simp only [attemptSucceeds, respOk, Bool.and_eq_true, decide_eq_true_eq,
          bne_iff_ne, ne_eq] at h2
        exact ⟨⟨h2.1.1, h2.1.2⟩, h2.2⟩
    · injection h with hkd
      injection hkd with hk hd
      subst hk
      refine ⟨by omega, ?_⟩
      rcases hf : f 3 with _ | ⟨status, len⟩ <;> rw [hf] at h3
      · exact absurd h3 (by decide)
      · simp only [attemptSucceeds, respOk, Bool.and_eq_true, decide_eq_true_eq,
          bne_iff_ne, ne_eq] at h3
        exact ⟨⟨h3.1.1, h3.1.2⟩, h3.2⟩
  · rfl
  · intro env expected e h
    unfold runEpilogue
    rw [h]

/-- Claim C5 witness: the success-condition conjunct applied to the
two-failures-then-success scenario. -/
theorem C5_download_retry_witness :
    (3 : Nat) ≤ 3 ∧ match
      (fun k => if k = 3 then AttemptResult.resp 200 1024
        else AttemptResult.resp 500 9) 3 with
      | AttemptResult.netError => False
      | AttemptResult.resp status len => (200 ≤ status ∧ status < 300) ∧ len ≠ 0 :=
  C5_download_retry.2.2.1
    (fun k => if k = 3 then AttemptResult.resp 200 1024 else AttemptResult.resp 500 9)
    3 6000 rfl

/-- Claim C3 counterexample: with every supported target failing all of
its probes, `detectAvailableIDEs` throws the fatal "No supported IDE
found" error — detection can abort the whole run, contrary to the claim
as stated. -/
theorem C3_counterexample :
    detectAvailableIDEs
      [{ name := "Cursor", priority := 1,
         env := { cliOk := false, onDarwin := false,
                  macPath := FsProbe.absent, extDir := FsProbe.absent } },
       { name := "VS Code", priority := 2,
         env := { cliOk := false, onDarwin := false,
                  macPath := FsProbe.absent, extDir := FsProbe.absent } },
       { name := "Antigravity", priority := 3,
         env := { cliOk := false, onDarwin := false,
                  macPath := FsProbe.absent, extDir := FsProbe.absent } }]
      = Except.error "No supported IDE found (Cursor or VS Code)" := rfl

/-- Claim C3 (amended): one target's detection failure — including a
probe exception, which the per-target catch turns into "absent" — never
prevents detection of the remaining targets: whenever at least one target
detects, the result is exactly the priority-sorted list of the targets
whose own probes succeed; only when every target fails does detection
abort with the fatal "No supported IDE found" error. -/
theorem C3_detection_isolation :
    (∀ ts : List TargetSpec, (∃ t ∈ ts, targetDetected t = true) →
      detectAvailableIDEs ts =
        Except.ok ((List.insertionSort prioLe (ts.filter targetDetected)).map
          (fun t => t.name)))
    ∧ (∀ ts : List TargetSpec, (∀ t ∈ ts, targetDetected t = false) →
      detectAvailableIDEs ts = Except.error "No supported IDE found (Cursor or VS Code)")
    ∧ (∀ (e : TargetEnv) (t : TargetSpec), detectTarget e = Except.error () →
        t.env = e → targetDetected t = false) := by
  refine ⟨?_, ?_, ?_⟩
  · rintro ts ⟨t, ht, hdet⟩
    unfold detectAvailableIDEs
    have hmem : t ∈ ts.filter targetDetected := List.mem_filter.mpr ⟨ht, hdet⟩
    have hmem2 : t ∈ List.insertionSort prioLe (ts.filter targetDetected) :=
      ((List.perm_insertionSort prioLe (ts.filter targetDetected)).mem_iff).mpr hmem
    have hne : ((List.insertionSort prioLe (ts.filter targetDetected)).map
        (fun t => t.name)).isEmpty = false := by
      rw [List.isEmpty_eq_false]
      intro hcon
      rw [List.map_eq_nil_iff] at hcon
      rw [hcon] at hmem2
      exact absurd hmem2 (List.not_mem_nil t)
    rw [if_neg (by rw [hne]; exact Bool.false_ne_true)]
  · intro ts hall
    unfold detectAvailableIDEs
    have hnil : ts.filter targetDetected = [] := by
      rw [List.filter_eq_nil_iff]
      intro t ht
      rw [hall t ht]
      exact Bool.false_ne_true
    rw [hnil]
    rfl
  · intro e t he hte
    unfold targetDetected
    rw [hte, he]

/-- Claim C3 witness: the isolation conjuncts at concrete registries,
one with a single succeeding target and one with every target failing. -/
theorem C3_detection_isolation_witness :
    detectAvailableIDEs
      [{ name := "Cursor", priority := 1,
         env := { cliOk := true, onDarwin := false,
                  macPath := FsProbe.absent, extDir := FsProbe.absent } },
       { name := "VS Code", priority := 2,
         env := { cliOk := false, onDarwin := false,
                  macPath := FsProbe.throws, extDir := FsProbe.absent } }]
      = Except.ok ((List.insertionSort prioLe
          (([{ name := "Cursor", priority := 1,
               env := { cliOk := true, onDarwin := false,
                        macPath := FsProbe.absent, extDir := FsProbe.absent } },
             { name := "VS Code", priority := 2,
               env := { cliOk := false, onDarwin := false,
                        macPath := FsProbe.throws, extDir := FsProbe.absent } }] :
            List TargetSpec).filter targetDetected)).map (fun t => t.name)) :=
  C3_detection_isolation.1 _
    ⟨{ name := "Cursor", priority := 1,
       env := { cliOk := true, onDarwin := false,
                macPath := FsProbe.absent, extDir := FsProbe.absent } },
      List.mem_cons_self _ _, rfl⟩

/-- Claim C6: the installed-version scan keeps exactly the directory
entries with the `<identifier>-` prefix whose stripped suffix is valid
semver, and returns a maximum of those suffixes under semver precedence
(`none` exactly when no parseable suffix exists); on
`{id-1.0.0, id-2.0.0, id-bad}` it returns `2.0.0`. -/
theorem C6_version_scan_max :
    (∀ (entries : List String) (extensionId v : String),
      getExtensionVersionFromDir entries extensionId = some v →
        v ∈ parseableSuffixes entries extensionId
        ∧ ∀ w ∈ parseableSuffixes entries extensionId,
            svCompareStr w v ≠ Ordering.gt)
    ∧ (∀ (entries : List String) (extensionId : String),
        getExtensionVersionFromDir entries extensionId = none ↔
          parseableSuffixes entries extensionId = [])
    ∧ getExtensionVersionFromDir ["id-1.0.0", "id-2.0.0", "id-bad"] "id"
        = some "2.0.0" := by
  refine ⟨?_, ?_, ?_⟩
  · intro entries extensionId v h
    unfold getExtensionVersionFromDir at h
    have hperm := List.perm_insertionSort rcompareLe (parseableSuffixes entries extensionId)
    have hmem : v ∈ List.insertionSort rcompareLe (parseableSuffixes entries extensionId) :=
      List.mem_of_mem_head? h
    refine ⟨hperm.mem_iff.mp hmem, ?_⟩
    intro w hw
    have hw2 : w ∈ List.insertionSort rcompareLe (parseableSuffixes entries extensionId) :=
      hperm.mem_iff.mpr hw
    have hsorted := List.sorted_insertionSort rcompareLe (parseableSuffixes entries extensionId)
    rcases sorted_head_bounds _ hsorted v h w hw2 with heq | hle
    · subst heq
      rw [svCompareStr_refl]
      exact Ordering.noConfusion
    · exact hle
  · intro entries extensionId
    unfold getExtensionVersionFromDir
    rw [List.head?_eq_none_iff]
    have hperm := List.perm_insertionSort rcompareLe (parseableSuffixes entries extensionId)
    constructor
    · intro hcon
      rw [hcon] at hperm
      exact hperm.symm.eq_nil
    · intro hcon
      rw [hcon]
      rfl
  · decide

/-- Claim C6 witness: the maximality conjunct at the
`{id-1.0.0, id-2.0.0, id-bad}` listing. -/
theorem C6_version_scan_max_witness :
    "2.0.0" ∈ parseableSuffixes ["id-1.0.0", "id-2.0.0", "id-bad"] "id"
    ∧ ∀ w ∈ parseableSuffixes ["id-1.0.0", "id-2.0.0", "id-bad"] "id",
        svCompareStr w "2.0.0" ≠ Ordering.gt :=
  C6_version_scan_max.1 ["id-1.0.0", "id-2.0.0", "id-bad"] "id" "2.0.0"
    C6_version_scan_max.2.2

/-! ### Helper lemmas for resolution and registry claims -/

theorem getLatest_primary_bad (p : PrimaryOutcome) (f : FallbackOutcome)
    (hpf : primaryFails p = true) :
    getLatestVersion p f
      = (getLatestVersionFallback f).map (fun v => (v, Provenance.fallback)) := by
  cases p with
  | netThrow => rfl
  | resp ok data =>
    cases ok with
    | false => rfl
    | true =>
      simp only [primaryFails, Bool.not_true, Bool.false_or] at hpf
      cases data with
      | none => rfl
      | some d =>
        cases hr : d.results.head? with
        | none => simp only [getLatestVersion, hr]; rfl
        | some r0 =>
          cases he : r0.extensions.head? with
          | none => simp only [getLatestVersion, hr, he]; rfl
          | some e0 =>
            cases hv : e0.versions.head? with
            | none => simp only [getLatestVersion, hr, he, hv]; rfl
            | some v0 =>
              simp only [hr, he] at hpf
              rw [List.isEmpty_iff] at hpf
              rw [hpf] at hv
              exact absurd hv (by simp)

theorem getLatest_primary_good (p : PrimaryOutcome) (f : FallbackOutcome)
    (hpf : primaryFails p = false) :
    ∃ v, getLatestVersion p f = Except.ok (v, Provenance.primary) := by
  cases p with
  | netThrow => exact absurd hpf (by simp [primaryFails])
  | resp ok data =>
    cases ok with
    | false => exact absurd hpf (by simp [primaryFails])
    | true =>
      simp only [primaryFails, Bool.not_true, Bool.false_or] at hpf
      cases data with
      | none => exact absurd hpf (by simp)
      | some d =>
        cases hr : d.results.head? with
        | none =>
          simp only [hr] at hpf
          exact absurd hpf (by decide)
        | some r0 =>
          cases he : r0.extensions.head? with
          | none =>
            simp only [hr, he] at hpf
            exact absurd hpf (by decide)
          | some e0 =>
            simp only [hr, he] at hpf
            cases hv : e0.versions.head? with
            | none =>
              rw [List.head?_eq_none_iff] at hv
              rw [hv] at hpf
              exact absurd hpf (by decide)
            | some v0 =>
              refine ⟨v0.version, ?_⟩
              simp only [getLatestVersion, hr, he, hv]
              rfl

/-- Prefix test succeeds on a self-prefixed list. -/
theorem listPrefixAt_self_append : ∀ (p w : List Char), listPrefixAt p (p ++ w) = true := by
  intro p w
  induction p with
  | nil => rfl
  | cons c cs ih => simp [listPrefixAt, ih]

/-- The directory-version capture on a literally prefixed name. -/
theorem extractDirVersionChars_self (c : Char) (cs w : List Char) (hw : w ≠ []) :
    extractDirVersionChars (c :: cs) ((c :: cs) ++ w) = some w := by
  have hpre : listPrefixAt (c :: cs) (c :: (cs ++ w)) = true := by
    have := listPrefixAt_self_append (c :: cs) w
    rwa [List.cons_append] at this
  have hdrop : (c :: (cs ++ w)).drop (c :: cs).length = w := by
    have := List.drop_left (c :: cs) w
    rwa [List.cons_append] at this
  rw [List.cons_append]
  unfold extractDirVersionChars
  rw [if_pos ⟨hpre, by
    rw [hdrop]
    intro hcon
    exact hw (List.length_eq_zero.mp hcon)⟩, hdrop]

/-! ### More claim theorems -/

/-- Claim C7: resolution fails only when both strategies fail — a primary
response that throws, is non-2xx, unparseable, or missing the
`results[0].extensions[0].versions[0]` chain always routes to the
fallback scrape (never to success), and the fallback page carrying
`"version":"9.9.9"` resolves to `9.9.9` with fallback provenance. -/
theorem C7_resolveLatest_fallback :
    (∀ (p : PrimaryOutcome) (f : FallbackOutcome),
      (∃ e, getLatestVersion p f = Except.error e) ↔
        (primaryFails p = true ∧ ∃ e2, getLatestVersionFallback f = Except.error e2))
    ∧ (∀ (p : PrimaryOutcome) (f : FallbackOutcome), primaryFails p = true →
        getLatestVersion p f
          = (getLatestVersionFallback f).map (fun v => (v, Provenance.fallback)))
    ∧ getLatestVersion
        (PrimaryOutcome.resp true (some { results := [{ extensions := [] }] }))
        (FallbackOutcome.resp true "<html>\"version\":\"9.9.9\"</html>")
      = Except.ok ("9.9.9", Provenance.fallback) := by
  refine ⟨?_, ?_, ?_⟩
  · intro p f
    constructor
    · rintro ⟨e, he⟩
      cases hpf : primaryFails p with
      | false =>
        obtain ⟨v, hv⟩ := getLatest_primary_good p f hpf
        rw [hv] at he
        exact Except.noConfusion he
      | true =>
        refine ⟨rfl, ?_⟩
        rw [getLatest_primary_bad p f hpf] at he
        cases hfb : getLatestVersionFallback f with
        | error e2 => exact ⟨e2, rfl⟩
        | ok v =>
          rw [hfb] at he
          exact Except.noConfusion he
    · rintro ⟨hpf, e2, hfb⟩
      rw [getLatest_primary_bad p f hpf, hfb]
      exact ⟨e2, rfl⟩
  · exact getLatest_primary_bad
  · rfl

/-- Claim C7 witness: the primary-failure routing conjunct applied to a
throwing primary request together with a fallback page that matches the
first pattern. -/
theorem C7_resolveLatest_fallback_witness :
    getLatestVersion PrimaryOutcome.netThrow
        (FallbackOutcome.resp true "x\"version\":\"1.2.3\"y")
      = (getLatestVersionFallback (FallbackOutcome.resp true "x\"version\":\"1.2.3\"y")).map
          (fun v => (v, Provenance.fallback)) :=
  C7_resolveLatest_fallback.2.1 PrimaryOutcome.netThrow
    (FallbackOutcome.resp true "x\"version\":\"1.2.3\"y") rfl

/-- Claim C4: rewriting a profile registry leaves exactly one record
matching the package identifier — the freshly constructed record,
appended last and carrying the version captured from the new directory
name — with no duplicates regardless of what was there before, and every
non-matching record preserved unchanged (in order). -/
theorem C4_registry_exactly_one :
    (∀ (existing : List ExtRecord) (dirName : String),
      (updateProfileExtensionsJson existing dirName).countP isAugmentRecord = 1
      ∧ (updateProfileExtensionsJson existing dirName).filter (fun r => !isAugmentRecord r)
          = existing.filter (fun r => !isAugmentRecord r)
      ∧ (updateProfileExtensionsJson existing dirName).getLast?
          = some (newAugmentRecord dirName))
    ∧ (∀ v : String, v ≠ "" →
        extractDirVersion ("augment.vscode-augment-" ++ v) = v) := by
  have hnew : ∀ dirName, isAugmentRecord (newAugmentRecord dirName) = true := by
    intro dirName
    have hid : (newAugmentRecord dirName).identifier
        = some ⟨some "augment.vscode-augment"⟩ := rfl
    unfold isAugmentRecord
    rw [hid]
    decide
  constructor
  · intro existing dirName
    refine ⟨?_, ?_, ?_⟩
    · unfold updateProfileExtensionsJson
      rw [List.countP_append]
      have h0 : (existing.filter (fun r => !isAugmentRecord r)).countP isAugmentRecord
          = 0 := by
        rw [List.countP_eq_zero]
        intro a ha
        have hmem := (List.mem_filter.mp ha).2
        simp only [Bool.not_eq_true'] at hmem
        simp [hmem]
      rw [h0]
      show 0 + List.countP isAugmentRecord [newAugmentRecord dirName] = 1
      have : List.countP isAugmentRecord [newAugmentRecord dirName] = 1 := by
        simp [List.countP_cons, hnew dirName]
      omega
    · unfold updateProfileExtensionsJson
      rw [List.filter_append, List.filter_filter]
      have h1 : List.filter (fun r => !isAugmentRecord r) [newAugmentRecord dirName]
          = [] := by
        simp [hnew dirName]
      rw [h1, List.append_nil]
      have h2 : (fun a => (!isAugmentRecord a) && (!isAugmentRecord a))
          = fun a => !isAugmentRecord a := by
        funext a
        exact Bool.and_self _
      rw [h2]
    · unfold updateProfileExtensionsJson
      exact List.getLast?_concat _
  · intro v hv
    unfold extractDirVersion
    have hd : ("augment.vscode-augment-" ++ v).data
        = ("augment.vscode-augment-").data ++ v.data := String.data_append _ _
    rw [hd]
    have hwne : v.data ≠ [] := by
      intro hcon
      apply hv
      have hv2 : v = String.mk v.data := rfl
      rw [hv2, hcon]
    rw [show ("augment.vscode-augment-").data
        = 'a' :: ("ugment.vscode-augment-").data from rfl,
      extractDirVersionChars_self 'a' ("ugment.vscode-augment-").data v.data hwne]

/-- Claim C4 witness: the version-capture conjunct at a concrete
directory name. -/
theorem C4_registry_exactly_one_witness :
    extractDirVersion ("augment.vscode-augment-" ++ "1.2.3") = "1.2.3" :=
  C4_registry_exactly_one.2 "1.2.3" (by decide)

/-- Claim C8 counterexample: with one discovered profile, a failing
default-profile install and a succeeding fallback, the target ends as
`fallbackInstalled` — fanout is skipped but the whole target is *not*
marked failed, contrary to the claim as stated. -/
theorem C8_counterexample :
    installExtensionInAllCursorProfiles
      { profiles := [{ name := "A", copyOk := true, registryOk := true }]
        defaultInstallOk := false
        fallbackInstallOk := true
        extDirExists := true
        extensionDirs := ["augment.vscode-augment-1.0.0"] }
      = InstallResult.fallbackInstalled
    ∧ isFailedResult
        (installExtensionInAllCursorProfiles
          { profiles := [{ name := "A", copyOk := true, registryOk := true }]
            defaultInstallOk := false
            fallbackInstallOk := true
            extDirExists := true
            extensionDirs := ["augment.vscode-augment-1.0.0"] })
      = false := by
  constructor <;> rfl

/-- Claim C8 (amended): when the default-profile install succeeds, fanout
reaches every discovered profile and each profile's reported outcome is
its own copy outcome — one profile's failure never stops the others, and
a registry-update failure is swallowed inside the update step itself;
when the default-profile install fails, fanout is not attempted, the
plain default install is retried once, and the target is marked failed
only if that fallback also fails. -/
theorem C8_fanout_isolation :
    (∀ env : FanoutEnv, env.defaultInstallOk = true → env.profiles ≠ [] →
        installExtensionInAllCursorProfiles env
          = InstallResult.fanoutDone (copyExtensionToAllProfiles env))
    ∧ (∀ env : FanoutEnv, env.extDirExists = true →
        (chooseSourceDir env.extensionDirs).isSome = true →
        copyExtensionToAllProfiles env
          = env.profiles.map (fun p => (p.name, p.copyOk)))
    ∧ (∀ env : FanoutEnv, env.defaultInstallOk = false →
        installExtensionInAllCursorProfiles env
          = (if env.fallbackInstallOk then InstallResult.fallbackInstalled
             else InstallResult.failed))
    ∧ (∀ (env : FanoutEnv) (o : List (String × Bool)),
        env.defaultInstallOk = false →
        installExtensionInAllCursorProfiles env ≠ InstallResult.fanoutDone o) := by
  have hbad : ∀ env : FanoutEnv, env.defaultInstallOk = false →
      installExtensionInAllCursorProfiles env
        = (if env.fallbackInstallOk then InstallResult.fallbackInstalled
           else InstallResult.failed) := by
    intro env h
    unfold installExtensionInAllCursorProfiles
    rw [h]
    by_cases hp : env.profiles.isEmpty
    · rw [if_pos hp]
      rfl
    · rw [if_neg hp]
      rfl
  refine ⟨?_, ?_, hbad, ?_⟩
  · intro env h1 h2
    unfold installExtensionInAllCursorProfiles
    rw [h1]
    have hp : env.profiles.isEmpty = false := by
      rw [List.isEmpty_eq_false]
      exact h2
    rw [hp]
    rfl
  · intro env h1 h2
    unfold copyExtensionToAllProfiles
    rw [h1]
    rcases hs : chooseSourceDir env.extensionDirs with _ | s
    · rw [hs] at h2
      exact absurd h2 (by decide)
    · rfl
  · intro env o h
    rw [hbad env h]
    by_cases hf : env.fallbackInstallOk
    · rw [if_pos hf]
      exact InstallResult.noConfusion
    · rw [if_neg hf]
      exact InstallResult.noConfusion

/-- Claim C8 witness: fanout isolation at a two-profile environment with
one failing copy, and the default-failure path at the counterexample
environment shape with a failing fallback. -/
theorem C8_fanout_isolation_witness :
    installExtensionInAllCursorProfiles
      { profiles := [{ name := "A", copyOk := true, registryOk := true },
                     { name := "B", copyOk := false, registryOk := true }]
        defaultInstallOk := true
        fallbackInstallOk := true
        extDirExists := true
        extensionDirs := ["augment.vscode-augment-1.0.0"] }
      = InstallResult.fanoutDone
          (copyExtensionToAllProfiles
            { profiles := [{ name := "A", copyOk := true, registryOk := true },
                           { name := "B", copyOk := false, registryOk := true }]
              defaultInstallOk := true
              fallbackInstallOk := true
              extDirExists := true
              extensionDirs := ["augment.vscode-augment-1.0.0"] }) :=
  C8_fanout_isolation.1
    { profiles := [{ name := "A", copyOk := true, registryOk := true },
                   { name := "B", copyOk := false, registryOk := true }]
      defaultInstallOk := true
      fallbackInstallOk := true
      extDirExists := true
      extensionDirs := ["augment.vscode-augment-1.0.0"] }
    rfl (List.cons_ne_nil _ _)

/-- Claim C10: the fanout source directory is the lexicographically
greatest matching directory name (plain string order), which is not
always the semantically greatest version: with versions `9.0.0` and
`10.0.0` both present the `9.0.0` directory is chosen although `10.0.0`
is the higher version. -/
theorem C10_lexicographic_source_choice :
    (∀ (dirs : List String) (d : String), chooseSourceDir dirs = some d →
        d ∈ dirs.filter (fun x => listPrefixAt ("augment.vscode-augment-").data x.data)
        ∧ ∀ x ∈ dirs.filter
            (fun x => listPrefixAt ("augment.vscode-augment-").data x.data),
            strLeLex x d)
    ∧ chooseSourceDir ["augment.vscode-augment-9.0.0", "augment.vscode-augment-10.0.0"]
        = some "augment.vscode-augment-9.0.0"
    ∧ svCompareStr "10.0.0" "9.0.0" = Ordering.gt := by
  refine ⟨?_, ?_, ?_⟩
  · intro dirs d h
    unfold chooseSourceDir at h
    have hperm := List.perm_insertionSort strLeLex
      (dirs.filter (fun x => listPrefixAt ("augment.vscode-augment-").data x.data))
    have hmem : d ∈ List.insertionSort strLeLex
        (dirs.filter (fun x => listPrefixAt ("augment.vscode-augment-").data x.data)) :=
      List.mem_of_mem_getLast? h
    refine ⟨hperm.mem_iff.mp hmem, ?_⟩
    intro x hx
    have hx2 := hperm.mem_iff.mpr hx
    have hsorted := List.sorted_insertionSort strLeLex
      (dirs.filter (fun x => listPrefixAt ("augment.vscode-augment-").data x.data))
    rcases sorted_getLast_bounds _ hsorted d h x hx2 with heq | hle
    · subst heq
      unfold strLeLex
      rw [(lexCmpChar_eq_iff x.data x.data).mpr rfl]
      exact fun hcon => Ordering.noConfusion hcon
    · exact hle
  · rfl
  · decide

/-- Claim C10 witness: the lexicographic-maximum conjunct at the
`{9.0.0, 10.0.0}` directory pair. -/
theorem C10_lexicographic_source_choice_witness :
    "augment.vscode-augment-9.0.0"
      ∈ (["augment.vscode-augment-9.0.0", "augment.vscode-augment-10.0.0"]).filter
          (fun x => listPrefixAt ("augment.vscode-augment-").data x.data)
    ∧ ∀ x ∈ (["augment.vscode-augment-9.0.0", "augment.vscode-augment-10.0.0"]).filter
          (fun x => listPrefixAt ("augment.vscode-augment-").data x.data),
        strLeLex x "augment.vscode-augment-9.0.0" :=
  C10_lexicographic_source_choice.1
    ["augment.vscode-augment-9.0.0", "augment.vscode-augment-10.0.0"]
    "augment.vscode-augment-9.0.0"
    C10_lexicographic_source_choice.2.1

end AutoUpdater
